import Mathlib

/-!
Verification of the go-heif concurrency/admission core against its
natural-language specification.  The definitions below are shallow
embeddings of the Go source:

* `src/pkg/quality/adaptive.go` — zero-iteration quality estimator
* `src/internal/converter/converter.go` — chroma-aware nearest-neighbor scaler
* `src/internal/middleware/ratelimit.go` — per-key token bucket
* `src/internal/converter/pool.go` — worker pool Submit / SubmitWithRetry
* buffer pool (`GetBuffer` / `PutBuffer`)

Go `float64` arithmetic is modelled over `ℚ`; Go machine integers over `ℤ`
(the values involved stay far below 2^63, so no wrap-around modelling is
needed except for the documented `uint8` casts, which use `% 256`).
-/

namespace GoHeif

/-! ## Quality estimator (src/pkg/quality/adaptive.go) -/

/-- Go's `int(x)` conversion from `float64`: truncation toward zero. -/
def goTrunc (q : ℚ) : Int :=
  if q < 0 then ⌈q⌉ else ⌊q⌋

/-- `clamp` from adaptive.go lines 152-160. -/
def clamp (x low high : Int) : Int :=
  if x < low then low
  else if x > high then high
  else x

/-- One Newton-Raphson step `z = 0.5 * (z + x/z)` from the loop in
`sqrt` (adaptive.go lines 145-148). -/
def newtonStep (x z : ℚ) : ℚ :=
  (1/2) * (z + x / z)

/-- The four unrolled Newton iterations of `sqrt`, starting from `z = 1.0`. -/
def newton4 (x : ℚ) : ℚ :=
  newtonStep x (newtonStep x (newtonStep x (newtonStep x 1)))

/-- `sqrt` from adaptive.go lines 137-150: returns `0` for non-positive
input, the input itself for input `≥ 1` (the quality clamp at 100 absorbs
the error), and four Newton-Raphson iterations from `1.0` otherwise. -/
def sqrt (x : ℚ) : ℚ :=
  if x ≤ 0 then 0
  else if 1 ≤ x then x
  else newton4 x

/-- Density-correction band of a pixel count: `2` above 20 megapixels
(quality − 5), `0` below 3 megapixels (quality + 5), `1` in between. -/
def densityBand (pixels : Int) : Nat :=
  if pixels > 20000000 then 2
  else if pixels < 3000000 then 0
  else 1

/-- Core of `estimateQualitySinglePass` (adaptive.go lines 99-134) as a
function of the pixel count `width * height`.  `targetBytes`, `ratio`,
the `sqrt` call, the density correction and the final clamp follow the
source line by line; the float constant `0.18` is the rational `18/100`. -/
def estimateQualityFromPixels (pixels targetSizeKB : Int) : Int :=
  let targetBytes : ℚ := ((targetSizeKB * 1024 : Int) : ℚ)
  let compressionFactor : ℚ := 18/100
  let ratio : ℚ := targetBytes / ((pixels : ℚ) * compressionFactor)
  let quality : ℚ := 100 * sqrt ratio
  let quality : ℚ :=
    if pixels > 20000000 then quality - 5
    else if pixels < 3000000 then quality + 5
    else quality
  clamp (goTrunc quality) 10 100

/-- `estimateQualitySinglePass(img, targetSizeKB)` with the image's
bounds already projected to `width`/`height`. -/
def estimateQualitySinglePass (width height targetSizeKB : Int) : Int :=
  estimateQualityFromPixels (width * height) targetSizeKB

/-! ## Scaling engine (src/internal/converter/converter.go lines 244-391)

A Go `image.YCbCr` with `YCbCrSubsampleRatio420` and rectangle
`Rect(0,0,w,h)` is modelled as the luma/chroma planes viewed as total
functions of coordinates.  The flat slices `Y`, `Cb`, `Cr` with strides
`YStride = w`, `CStride = (w+1)/2` are in bijection with 2-D coordinates
`(x, y)` via `offset = y*stride + x`, `0 ≤ x < stride`; positions never
written by the scaler keep the zero value of a fresh allocation. -/

/-- Chroma plane width allocated by Go's `image.NewYCbCr` under 4:2:0 for
`Rect(0,0,w,h)`: `(w+1)/2 - 0/2 = ⌈w/2⌉`. -/
def chromaWidth420 (w : Int) : Int := (w + 1) / 2

/-- Chroma plane height allocated by Go's `image.NewYCbCr` under 4:2:0. -/
def chromaHeight420 (h : Int) : Int := (h + 1) / 2

/-- A 4:2:0 `image.YCbCr`: dimensions plus the three planes as
coordinate functions. -/
structure YCbCrImage where
  w : Int
  h : Int
  yP : Int → Int → Int
  cbP : Int → Int → Int
  crP : Int → Int → Int

/-- A Go `image.Image` as seen by `scaleImage`: either an `*image.YCbCr`
(taken by the fast path) or any other image type, represented by its
bounds and its `At(x, y).RGBA()` function returning 16-bit `(r, g, b)`
components (alpha is discarded by the scaler). -/
inductive GoImage where
  | ycbcr (img : YCbCrImage)
  | generic (w h : Int) (px : Int → Int → Int × Int × Int)

/-- `bounds.Dx()` of the image. -/
def GoImage.w : GoImage → Int
  | .ycbcr i => i.w
  | .generic w _ _ => w

/-- `bounds.Dy()` of the image. -/
def GoImage.h : GoImage → Int
  | .ycbcr i => i.h
  | .generic _ h _ => h

/-- Fixed-point ratio `(srcD << 16) / dstD` used by both scaling loops. -/
def nnRatio (srcD dstD : Int) : Int := (srcD * 65536) / dstD

/-- Nearest-neighbor source index `(i * ratio) >> 16`. -/
def nnIndex (ratio i : Int) : Int := (i * ratio) / 65536

/-- `scaleYCbCrNearest` (converter.go lines 294-330).  The luma plane is
resampled over the destination luma grid; the chroma planes are resampled
over `Dx()/2 × Dy()/2` grids with their own fixed-point ratios computed
from the half-resolution chroma dimensions of source and destination. -/
def scaleYCbCrNearest (src : YCbCrImage) (srcW srcH dstW dstH : Int) : YCbCrImage :=
  let xRatio := nnRatio srcW dstW
  let yRatio := nnRatio srcH dstH
  let cSrcW := srcW / 2
  let cSrcH := srcH / 2
  let cDstW := dstW / 2
  let cDstH := dstH / 2
  let cxRatio := nnRatio cSrcW cDstW
  let cyRatio := nnRatio cSrcH cDstH
  { w := dstW
    h := dstH
    yP := fun x y =>
      if 0 ≤ x ∧ x < dstW ∧ 0 ≤ y ∧ y < dstH then
        src.yP (nnIndex xRatio x) (nnIndex yRatio y)
      else 0
    cbP := fun x y =>
      if 0 ≤ x ∧ x < cDstW ∧ 0 ≤ y ∧ y < cDstH then
        src.cbP (nnIndex cxRatio x) (nnIndex cyRatio y)
      else 0
    crP := fun x y =>
      if 0 ≤ x ∧ x < cDstW ∧ 0 ≤ y ∧ y < cDstH then
        src.crP (nnIndex cxRatio x) (nnIndex cyRatio y)
      else 0 }

/-- Luma from 8-bit RGB, fixed point:
`(19595*r8 + 38470*g8 + 7471*b8 + 1<<15) >> 16`, then the `uint8` cast. -/
def rgbToY (r8 g8 b8 : Int) : Int :=
  ((19595 * r8 + 38470 * g8 + 7471 * b8 + 32768) / 65536) % 256

/-- Cb from 8-bit RGB: `(32768*b8 - 11056*r8 - 21712*g8) >> 16 + 128`
in `int32` (arithmetic shift = floor division), then the `uint8` cast. -/
def rgbToCb (r8 g8 b8 : Int) : Int :=
  ((32768 * b8 - 11056 * r8 - 21712 * g8) / 65536 + 128) % 256

/-- Cr from 8-bit RGB: `(32768*r8 - 27440*g8 - 5328*b8) >> 16 + 128`
in `int32`, then the `uint8` cast. -/
def rgbToCr (r8 g8 b8 : Int) : Int :=
  ((32768 * r8 - 27440 * g8 - 5328 * b8) / 65536 + 128) % 256

/-- `scaleGenericNearest` (converter.go lines 334-391): luma from every
destination pixel, chroma from the top-left source sample of each 2×2
block, both through the standard JPEG RGB→YCbCr fixed-point transform.
The 16-bit components from `RGBA()` are reduced with `r8 := r >> 8`. -/
def scaleGenericNearest (px : Int → Int → Int × Int × Int)
    (srcW srcH dstW dstH : Int) : YCbCrImage :=
  let xRatio := nnRatio srcW dstW
  let yRatio := nnRatio srcH dstH
  let cDstW := dstW / 2
  let cDstH := dstH / 2
  { w := dstW
    h := dstH
    yP := fun x y =>
      if 0 ≤ x ∧ x < dstW ∧ 0 ≤ y ∧ y < dstH then
        let p := px (nnIndex xRatio x) (nnIndex yRatio y)
        rgbToY (p.1 / 256) (p.2.1 / 256) (p.2.2 / 256)
      else 0
    cbP := fun cx cy =>
      if 0 ≤ cx ∧ cx < cDstW ∧ 0 ≤ cy ∧ cy < cDstH then
        let p := px (nnIndex xRatio (cx * 2)) (nnIndex yRatio (cy * 2))
        rgbToCb (p.1 / 256) (p.2.1 / 256) (p.2.2 / 256)
      else 0
    crP := fun cx cy =>
      if 0 ≤ cx ∧ cx < cDstW ∧ 0 ≤ cy ∧ cy < cDstH then
        let p := px (nnIndex xRatio (cx * 2)) (nnIndex yRatio (cy * 2))
        rgbToCr (p.1 / 256) (p.2.1 / 256) (p.2.2 / 256)
      else 0 }

/-- `scaleImage` (converter.go lines 246-291): identity for
`scale >= 1.0`; identity for non-positive source dimensions; otherwise
destination dimensions `int(float64(srcDim) * scale)` floored at 100 and
a fresh 4:2:0 `image.NewYCbCr` filled by the type-matched scaler. -/
def scaleImage (img : GoImage) (scale : ℚ) : GoImage :=
  if 1 ≤ scale then img
  else if img.w ≤ 0 ∨ img.h ≤ 0 then img
  else
    let dstW := max 100 (goTrunc ((img.w : ℚ) * scale))
    let dstH := max 100 (goTrunc ((img.h : ℚ) * scale))
    match img with
    | .ycbcr src => .ycbcr (scaleYCbCrNearest src src.w src.h dstW dstH)
    | .generic w h px => .ycbcr (scaleGenericNearest px w h dstW dstH)

/-! ## Rate limiter (src/internal/middleware/ratelimit.go lines 45-79)

Wall-clock instants are rationals measured in seconds, so
`now.Sub(b.lastRef).Seconds()` is plain subtraction.  The mutable
`map[string]*bucket` is an association list updated in place. -/

/-- Per-key token bucket state (`bucket` in ratelimit.go). -/
structure Bucket where
  tokens : ℚ
  lastRef : ℚ
deriving DecidableEq

/-- The `limits` map of a `RateLimiter`. -/
abbrev RLMap := List (String × Bucket)

/-- Map read `rl.limits[ip]`. -/
def lookupB : RLMap → String → Option Bucket
  | [], _ => none
  | (k, b) :: rest, ip => if k = ip then some b else lookupB rest ip

/-- Map write `rl.limits[ip] = b` (replaces the entry if present,
inserts it otherwise). -/
def writeB : RLMap → String → Bucket → RLMap
  | [], ip, b => [(ip, b)]
  | (k, old) :: rest, ip, b =>
    if k = ip then (k, b) :: rest else (k, old) :: writeB rest ip b

/-- `RateLimiter.Allow(ip)` called at instant `now` on map state `m`,
with the limiter's `rate` and `burst` parameters: returns the admission
decision and the updated map.  Mirrors ratelimit.go lines 45-79. -/
def RateLimiter.Allow (rate burst : Int) (m : RLMap) (ip : String) (now : ℚ) :
    Bool × RLMap :=
  match lookupB m ip with
  | none => (true, writeB m ip ⟨(burst : ℚ) - 1, now⟩)
  | some b =>
    let elapsed := now - b.lastRef
    let tokensToAdd := elapsed * (rate : ℚ)
    let tokens1 := b.tokens + tokensToAdd
    let tokens2 := if tokens1 > (burst : ℚ) then (burst : ℚ) else tokens1
    if tokens2 ≥ 1 then (true, writeB m ip ⟨tokens2 - 1, now⟩)
    else (false, writeB m ip ⟨tokens2, now⟩)

/-- The claim's own description of `Allow`, for the refinement proof:
on first sight of a key create a bucket with `burst - 1` tokens and
admit; otherwise refill by `elapsed * rate` capped at `burst` (written
with `min` as the claim words it), then admit and consume one token iff
at least one token is available. -/
def tokenBucketSpec (rate burst : Int) (m : RLMap) (ip : String) (now : ℚ) :
    Bool × RLMap :=
  match lookupB m ip with
  | none => (true, writeB m ip ⟨(burst : ℚ) - 1, now⟩)
  | some b =>
    let refilled := min (burst : ℚ) (b.tokens + (now - b.lastRef) * (rate : ℚ))
    if 1 ≤ refilled then (true, writeB m ip ⟨refilled - 1, now⟩)
    else (false, writeB m ip ⟨refilled, now⟩)

/-! ## WorkerPool.Submit (src/internal/converter/pool.go lines 84-113)

`Submit` is two nested `select`s.  Go's `select` chooses uniformly at
random among the *ready* cases and runs `default` only when no case is
ready, so a single call is a relation, not a function.  The relation is
indexed by the facts that determine readiness:

* `ctxDone` — `ctx` is already done when `Submit` runs its outer select;
* `queueFree` — the buffered `p.jobs` channel has a free slot;
* `resultReady` — the job's result is (eventually) delivered on
  `resultChan` while `Submit` waits in the inner select;
* `lateCancel` — `ctx` becomes done while `Submit` waits in the inner
  select.

The outcome records whether the job was enqueued and what was returned. -/

/-- Possible returns of `WorkerPool.Submit`. -/
inductive SubmitRes where
  /-- `nil, ctx.Err()` -/
  | ctxErr
  /-- `nil, ErrPoolBusy` from the `default` branch -/
  | poolBusy
  /-- `result.Data, result.Err` received from the job's result channel -/
  | jobResult
deriving DecidableEq

/-- One execution of `Submit`, as allowed by Go select semantics.  The
first `Bool` index is whether the job was enqueued onto `p.jobs`. -/
inductive SubmitStep (ctxDone queueFree resultReady lateCancel : Bool) :
    Bool → SubmitRes → Prop
  /-- Outer select takes `case <-ctx.Done()`: ready whenever the context
  is done, even if the enqueue case is also ready. -/
  | recvCtx : ctxDone = true → SubmitStep ctxDone queueFree resultReady lateCancel false .ctxErr
  /-- Outer select falls to `default`: only when no other case is ready,
  i.e. the context is not done and the queue is full. -/
  | deflt : ctxDone = false → queueFree = false →
      SubmitStep ctxDone queueFree resultReady lateCancel false .poolBusy
  /-- Outer select takes `case p.jobs <- job` (ready whenever the queue
  has space), then the inner select takes `case <-ctx.Done()` — the
  context was already done at entry or became done while waiting. -/
  | enqThenCtx : queueFree = true → ctxDone = true ∨ lateCancel = true →
      SubmitStep ctxDone queueFree resultReady lateCancel true .ctxErr
  /-- Outer select enqueues, then the inner select receives the result. -/
  | enqThenRes : queueFree = true → resultReady = true →
      SubmitStep ctxDone queueFree resultReady lateCancel true .jobResult

/-! ## WorkerPool.SubmitWithRetry (src/internal/converter/pool.go lines 116-137)

The `Submit` calls inside the loop are abstracted by an oracle
`attempt : ℕ → AttemptResult` giving the outcome of the `i`-th call, and
`cancelDuringWait i` says whether `ctx` fires during the `i`-th backoff
sleep.  The returned trace also records every backoff duration actually
waited (in milliseconds) and the number of `Submit` calls made, so the
claims about backoff and attempt counts are statable. -/

/-- Errors that can travel through `SubmitWithRetry`. -/
inductive GoError where
  | poolBusy
  | ctxCanceled
  | invalidHEIF
  | convFailed
deriving DecidableEq

/-- Outcome of one `Submit` call: `ok data` for `err == nil`, otherwise
the error. -/
inductive AttemptResult where
  | ok (data : List Nat)
  | fail (e : GoError)
deriving DecidableEq

/-- What a `SubmitWithRetry` call did: the returned `([]byte, error)`
pair, backoff sleeps performed (ms), and number of `Submit` calls. -/
structure RetryTrace where
  data : Option (List Nat)
  err : Option GoError
  waitsMs : List Nat
  calls : Nat
deriving DecidableEq

/-- The retry loop `for i := 0; i < maxRetries; i++`, with `fuel`
iterations left and `i` the current index.  Per iteration: call
`Submit`; success returns immediately; a non-busy error returns
immediately; on busy, sleep `(i+1)*10ms` racing `ctx` (cancellation
returns `ctx.Err()`), then continue.  Exhausted fuel returns
`nil, lastErr`. -/
def SubmitWithRetryAux (attempt : Nat → AttemptResult)
    (cancelDuringWait : Nat → Bool) :
    Nat → Nat → Option GoError → RetryTrace
  | 0, _, lastErr => ⟨none, lastErr, [], 0⟩
  | fuel + 1, i, _ =>
    match attempt i with
    | .ok d => ⟨some d, none, [], 1⟩
    | .fail e =>
      if e = .poolBusy then
        if cancelDuringWait i then ⟨none, some .ctxCanceled, [(i + 1) * 10], 1⟩
        else
          let rest := SubmitWithRetryAux attempt cancelDuringWait fuel (i + 1) (some .poolBusy)
          ⟨rest.data, rest.err, (i + 1) * 10 :: rest.waitsMs, rest.calls + 1⟩
      else ⟨none, some e, [], 1⟩

/-- `WorkerPool.SubmitWithRetry(ctx, data, scale, quality, maxRetries)`.
`maxRetries` is a Go `int`; a non-positive value skips the loop and
returns `nil, nil` (the zero-valued `lastErr`). -/
def SubmitWithRetry (attempt : Nat → AttemptResult)
    (cancelDuringWait : Nat → Bool) (maxRetries : Int) : RetryTrace :=
  SubmitWithRetryAux attempt cancelDuringWait maxRetries.toNat 0 none

/-! ## Buffer pool (`GetBuffer` / `PutBuffer`)

Each `sync.Pool` free list is modelled as a LIFO list; `Get` takes the
most recently put buffer if one exists and otherwise calls the tier's
`New`, which allocates a zero-length buffer of the tier capacity.  A
`*[]byte` is modelled by its length and capacity — no claim inspects the
stored bytes. -/

/-- A Go `[]byte` slice header: length and capacity. -/
structure GoBuffer where
  length : Nat
  capacity : Int
deriving DecidableEq

/-- The four `sync.Pool` free lists of the global `BufferPool`. -/
structure BufferPool where
  small : List GoBuffer
  medium : List GoBuffer
  large : List GoBuffer
  xlarge : List GoBuffer
deriving DecidableEq

/-- The four tier capacities: 64KB, 512KB, 5MB, 10MB. -/
def tierCaps : List Int := [65536, 524288, 5242880, 10485760]

/-- The smallest tier capacity `≥ size`, if any. -/
def smallestTierGE (size : Int) : Option Int :=
  if size ≤ 65536 then some 65536
  else if size ≤ 524288 then some 524288
  else if size ≤ 5242880 then some 5242880
  else if size ≤ 10485760 then some 10485760
  else none

/-- `GetBuffer(size)`: tier selection by the `switch` on `size`, then
`pool.Get()` on the chosen tier. -/
def GetBuffer (p : BufferPool) (size : Int) : GoBuffer × BufferPool :=
  if size ≤ 65536 then
    match p.small with
    | [] => (⟨0, 65536⟩, p)
    | b :: rest => (b, { p with small := rest })
  else if size ≤ 524288 then
    match p.medium with
    | [] => (⟨0, 524288⟩, p)
    | b :: rest => (b, { p with medium := rest })
  else if size ≤ 5242880 then
    match p.large with
    | [] => (⟨0, 5242880⟩, p)
    | b :: rest => (b, { p with large := rest })
  else
    match p.xlarge with
    | [] => (⟨0, 10485760⟩, p)
    | b :: rest => (b, { p with xlarge := rest })

/-- `PutBuffer(b)`: reset the length to zero (`*b = (*b)[:0]`), then the
`switch` on `cap(*b)` — only a capacity exactly equal to a tier is
pooled; anything else is dropped for the garbage collector. -/
def PutBuffer (p : BufferPool) (b : GoBuffer) : BufferPool :=
  let b2 : GoBuffer := ⟨0, b.capacity⟩
  if b2.capacity = 65536 then { p with small := b2 :: p.small }
  else if b2.capacity = 524288 then { p with medium := b2 :: p.medium }
  else if b2.capacity = 5242880 then { p with large := b2 :: p.large }
  else if b2.capacity = 10485760 then { p with xlarge := b2 :: p.xlarge }
  else p

/-- Invariant of every reachable pool state: each free list holds only
zero-length buffers of its own tier capacity. -/
def ValidPool (p : BufferPool) : Prop :=
  (∀ b ∈ p.small, b.length = 0 ∧ b.capacity = 65536) ∧
  (∀ b ∈ p.medium, b.length = 0 ∧ b.capacity = 524288) ∧
  (∀ b ∈ p.large, b.length = 0 ∧ b.capacity = 5242880) ∧
  (∀ b ∈ p.xlarge, b.length = 0 ∧ b.capacity = 10485760)

/-! ## Claim C5 -/

/-- `clamp` keeps its result between its bounds whenever `low ≤ high`. -/
lemma clamp_mem (x low high : Int) (h : low ≤ high) :
    low ≤ clamp x low high ∧ clamp x low high ≤ high := by
  unfold clamp
  split_ifs <;> omega

/-- C5: for all positive `width`, `height` and `targetSizeKB`, the
quality estimator returns an integer in the closed interval
`[10, 100]` — the final `clamp(int(quality), minQuality, maxQuality)`
guarantees the bounds. -/
theorem c5_quality_bounds (w h t : Int) (hw : 0 < w) (hh : 0 < h) (ht : 0 < t) :
    10 ≤ estimateQualitySinglePass w h t ∧ estimateQualitySinglePass w h t ≤ 100 := by
  unfold estimateQualitySinglePass estimateQualityFromPixels
  exact clamp_mem _ 10 100 (by norm_num)

/-- C5 witness: the bounds hold at the concrete call
`estimateQualitySinglePass 1920 1080 500`. -/
theorem c5_witness :
    10 ≤ estimateQualitySinglePass 1920 1080 500 ∧
      estimateQualitySinglePass 1920 1080 500 ≤ 100 :=
  c5_quality_bounds 1920 1080 500 (by norm_num) (by norm_num) (by norm_num)

/-! ## Claim C8 -/

/-- C8: `scaleImage` is the identity for every factor `≥ 1` and for
every image with a non-positive source width or height, for any
factor — in both cases the original image value is returned and no new
image is built. -/
theorem c8_scale_identity :
    (∀ (img : GoImage) (scale : ℚ), 1 ≤ scale → scaleImage img scale = img) ∧
    (∀ (img : GoImage) (scale : ℚ), img.w ≤ 0 ∨ img.h ≤ 0 → scaleImage img scale = img) := by
  constructor
  · intro img scale hs
    unfold scaleImage
    rw [if_pos hs]
  · intro img scale hdim
    unfold scaleImage
    split_ifs with h1
    · rfl
    · rfl

/-- C8 witness: identity at a concrete generic image with factor 2 and
at a concrete zero-width YCbCr image with factor 1/2. -/
theorem c8_witness :
    scaleImage (.generic 5 7 (fun _ _ => (0, 0, 0))) 2 = .generic 5 7 (fun _ _ => (0, 0, 0)) ∧
      scaleImage (.ycbcr ⟨0, 7, fun _ _ => 0, fun _ _ => 0, fun _ _ => 0⟩) (1/2) =
        .ycbcr ⟨0, 7, fun _ _ => 0, fun _ _ => 0, fun _ _ => 0⟩ :=
  ⟨c8_scale_identity.1 _ 2 (by norm_num),
   c8_scale_identity.2 _ (1/2) (Or.inl (by norm_num [GoImage.w]))⟩

/-! ## Claim C10 -/

/-- C10: `SubmitWithRetry` with `maxRetries <= 0` skips the retry loop
entirely and returns `nil, nil` — a nil byte slice and a nil error,
with no backoff sleep and zero calls to `Submit`. -/
theorem c10_retry_nonpositive (attempt : Nat → AttemptResult)
    (cancelDuringWait : Nat → Bool) (m : Int) (hm : m ≤ 0) :
    SubmitWithRetry attempt cancelDuringWait m = ⟨none, none, [], 0⟩ := by
  unfold SubmitWithRetry
  rw [Int.toNat_of_nonpos hm]
  rfl

/-- C10 witness: concrete instance with `maxRetries = -1` and an oracle
that would fail every `Submit` — no call is ever made. -/
theorem c10_witness :
    SubmitWithRetry (fun _ => .fail .invalidHEIF) (fun _ => false) (-1) =
      ⟨none, none, [], 0⟩ :=
  c10_retry_nonpositive (fun _ => .fail .invalidHEIF) (fun _ => false) (-1) (by norm_num)

/-! ## Claim C2 -/

/-- C2 counterexample: the claim "if the caller's context is already
done at entry, `Submit` returns the context's error without enqueuing"
is false: with the context done and a free queue slot, both the
`<-ctx.Done()` case and the `p.jobs <- job` case of the outer select are
ready, and Go chooses between ready cases uniformly at random, so an
execution exists that enqueues the job — and may even return the job's
result when the worker delivers it before the inner select fires on the
done context.  Concrete instance: `ctxDone = true`, `queueFree = true`,
`resultReady = true`, `lateCancel = false`. -/
theorem c2_counterexample :
    ¬ (∀ (queueFree resultReady lateCancel enq : Bool) (r : SubmitRes),
        SubmitStep true queueFree resultReady lateCancel enq r →
          enq = false ∧ r = SubmitRes.ctxErr) := by
  intro hclaim
  have h := hclaim true true false true SubmitRes.jobResult (.enqThenRes rfl rfl)
  exact absurd h.1 (by simp)

/-- C2 amended: if the context is done at entry and the queue is full,
`Submit` returns the context's error without enqueuing; if the context
is not done and the queue is full, `Submit` returns `ErrPoolBusy`
immediately without enqueuing (the `default` branch — the enqueue
attempt never blocks, an outcome exists in every full-queue state); if
the context is done and the queue has a free slot, `Submit` either
returns the context's error (enqueuing or not, select's choice) or
enqueues and returns the job's result when it is already available. -/
theorem c2_submit_semantics :
    (∀ (resultReady lateCancel : Bool) (enq : Bool) (r : SubmitRes),
        SubmitStep true false resultReady lateCancel enq r ↔
          enq = false ∧ r = SubmitRes.ctxErr) ∧
    (∀ (resultReady lateCancel : Bool) (enq : Bool) (r : SubmitRes),
        SubmitStep false false resultReady lateCancel enq r ↔
          enq = false ∧ r = SubmitRes.poolBusy) ∧
    (∀ (resultReady lateCancel : Bool) (enq : Bool) (r : SubmitRes),
        SubmitStep true true resultReady lateCancel enq r →
          r = SubmitRes.ctxErr ∨
            (enq = true ∧ r = SubmitRes.jobResult ∧ resultReady = true)) ∧
    (∀ (ctxDone resultReady lateCancel : Bool),
        ∃ (enq : Bool) (r : SubmitRes),
          SubmitStep ctxDone false resultReady lateCancel enq r) := by
  refine ⟨?_, ?_, ?_, ?_⟩
  · intro rr lc enq r
    constructor
    · intro h
      cases h with
      | recvCtx h => exact ⟨rfl, rfl⟩
      | deflt h1 h2 => exact absurd h1 (by simp)
      | enqThenCtx h1 h2 => exact absurd h1 (by simp)
      | enqThenRes h1 h2 => exact absurd h1 (by simp)
    · rintro ⟨rfl, rfl⟩
      exact .recvCtx rfl
  · intro rr lc enq r
    constructor
    · intro h
      cases h with
      | recvCtx h => exact absurd h (by simp)
      | deflt h1 h2 => exact ⟨rfl, rfl⟩
      | enqThenCtx h1 h2 => exact absurd h1 (by simp)
      | enqThenRes h1 h2 => exact absurd h1 (by simp)
    · rintro ⟨rfl, rfl⟩
      exact .deflt rfl rfl
  · intro rr lc enq r h
    cases h with
    | recvCtx h => exact Or.inl rfl
    | deflt h1 h2 => exact absurd h1 (by simp)
    | enqThenCtx h1 h2 => exact Or.inl rfl
    | enqThenRes h1 h2 => exact Or.inr ⟨rfl, rfl, h2⟩
  · intro cd rr lc
    cases cd with
    | true => exact ⟨false, .ctxErr, .recvCtx rfl⟩
    | false => exact ⟨false, .poolBusy, .deflt rfl rfl⟩

/-- C2 witness: concrete instance of the full-queue/live-context part —
with the context not done and the queue full, the only possible outcome
is the immediate `ErrPoolBusy` without enqueuing. -/
theorem c2_witness :
    SubmitStep false false true false false SubmitRes.poolBusy :=
  (c2_submit_semantics.2.1 true false false SubmitRes.poolBusy).mpr ⟨rfl, rfl⟩

/-! ## Claim C9 -/

/-- The empty buffer-pool state: every free list starts empty. -/
def emptyPool : BufferPool := ⟨[], [], [], []⟩

/-- C9 counterexample: the claim "GetBuffer returns a buffer whose
capacity is the smallest tier greater than or equal to sizeHint" fails
at `sizeHint = 10*1024*1024 + 1`: no tier is `≥` the hint, yet
`GetBuffer` still returns a buffer — of the largest tier capacity
10485760, which is smaller than the hint. -/
theorem c9_counterexample :
    ¬ ∃ t : Int, smallestTierGE 10485761 = some t ∧
        (GetBuffer emptyPool 10485761).1.capacity = t ∧
        (GetBuffer emptyPool 10485761).1.length = 0 := by
  have hnone : smallestTierGE 10485761 = none := by decide
  rintro ⟨t, ht, -, -⟩
  rw [hnone] at ht
  exact Option.noConfusion ht

/-- C9 amended: on every reachable pool state, `GetBuffer` returns a
zero-length buffer whose capacity is the smallest tier `≥ sizeHint` when
one exists and the largest tier (10MB) when the hint exceeds all tiers;
`PutBuffer` resets the length to zero and prepends the buffer to exactly
the free list whose tier capacity equals the buffer's capacity, leaving
the state unchanged for any other capacity. -/
theorem c9_buffer_pool :
    (∀ p : BufferPool, ValidPool p → ∀ size : Int,
        (GetBuffer p size).1.length = 0 ∧
        (GetBuffer p size).1.capacity = (smallestTierGE size).getD 10485760) ∧
    (∀ (p : BufferPool) (b : GoBuffer),
        (b.capacity = 65536 →
          PutBuffer p b = { p with small := ⟨0, b.capacity⟩ :: p.small }) ∧
        (b.capacity = 524288 →
          PutBuffer p b = { p with medium := ⟨0, b.capacity⟩ :: p.medium }) ∧
        (b.capacity = 5242880 →
          PutBuffer p b = { p with large := ⟨0, b.capacity⟩ :: p.large }) ∧
        (b.capacity = 10485760 →
          PutBuffer p b = { p with xlarge := ⟨0, b.capacity⟩ :: p.xlarge }) ∧
        (b.capacity ∉ tierCaps → PutBuffer p b = p)) := by
  constructor
  · rintro p ⟨hs, hm, hl, hx⟩ size
    unfold GetBuffer smallestTierGE
    split_ifs with h1 h2 h3 h4
    · cases hps : p.small with
      | nil => simp
      | cons b rest =>
        have hb := hs b (by rw [hps]; exact List.mem_cons_self b rest)
        simp [hb.1, hb.2]
    · cases hpm : p.medium with
      | nil => simp
      | cons b rest =>
        have hb := hm b (by rw [hpm]; exact List.mem_cons_self b rest)
        simp [hb.1, hb.2]
    · cases hpl : p.large with
      | nil => simp
      | cons b rest =>
        have hb := hl b (by rw [hpl]; exact List.mem_cons_self b rest)
        simp [hb.1, hb.2]
    · cases hpx : p.xlarge with
      | nil => simp
      | cons b rest =>
        have hb := hx b (by rw [hpx]; exact List.mem_cons_self b rest)
        simp [hb.1, hb.2]
    · cases hpx : p.xlarge with
      | nil => simp
      | cons b rest =>
        have hb := hx b (by rw [hpx]; exact List.mem_cons_self b rest)
        simp [hb.1, hb.2]
  · intro p b
    refine ⟨?_, ?_, ?_, ?_, ?_⟩ <;> intro hc <;> unfold PutBuffer
    · rw [if_pos hc]
    · rw [if_neg (by rw [hc]; norm_num), if_pos hc]
    · rw [if_neg (by rw [hc]; norm_num), if_neg (by rw [hc]; norm_num), if_pos hc]
    · rw [if_neg (by rw [hc]; norm_num), if_neg (by rw [hc]; norm_num),
        if_neg (by rw [hc]; norm_num), if_pos hc]
    · simp only [tierCaps, List.mem_cons, List.not_mem_nil, or_false, not_or] at hc
      rw [if_neg hc.1, if_neg hc.2.1, if_neg hc.2.2.1, if_neg hc.2.2.2]

/-- C9 witness: on the empty pool, a 100KB hint yields a fresh
zero-length 512KB-tier buffer, and putting back a 300KB-capacity buffer
(no tier matches) leaves the pool unchanged. -/
theorem c9_witness :
    ((GetBuffer emptyPool 102400).1.length = 0 ∧
      (GetBuffer emptyPool 102400).1.capacity = (smallestTierGE 102400).getD 10485760) ∧
    PutBuffer emptyPool ⟨5, 307200⟩ = emptyPool :=
  ⟨c9_buffer_pool.1 emptyPool (by simp [ValidPool, emptyPool]) 102400,
   (c9_buffer_pool.2 emptyPool ⟨5, 307200⟩).2.2.2.2 (by decide)⟩

/-! ## Claim C1 -/

/-- Go's `int(x)` truncation agrees with the floor on non-negative
input. -/
lemma goTrunc_of_nonneg {q : ℚ} (h : 0 ≤ q) : goTrunc q = ⌊q⌋ := by
  unfold goTrunc
  rw [if_neg (not_lt.mpr h)]

/-- Destination dimensions of a real (factor < 1, positive source)
scaling: `int(float64(srcDim) * scale)` floored at the 100-pixel
minimum, in each axis. -/
lemma scaleImage_dims (img : GoImage) (factor : ℚ) (hw : 0 < img.w)
    (hh : 0 < img.h) (h1 : factor < 1) :
    (scaleImage img factor).w = max 100 (goTrunc ((img.w : ℚ) * factor)) ∧
    (scaleImage img factor).h = max 100 (goTrunc ((img.h : ℚ) * factor)) := by
  unfold scaleImage
  rw [if_neg (not_le.mpr h1), if_neg (by push_neg; exact ⟨hw, hh⟩)]
  cases img with
  | ycbcr src => simp [scaleYCbCrNearest, GoImage.w, GoImage.h]
  | generic w h px => simp [scaleGenericNearest, GoImage.w, GoImage.h]

/-- A concrete 203×203 4:2:0 source image. -/
def img0 : GoImage := .ycbcr ⟨203, 203, fun _ _ => 0, fun _ _ => 0, fun _ _ => 0⟩

/-- C1 counterexample: at a 203×203 source and factor 1/2 the claim
fails twice over.  `scaleImage` computes `int(203 * 0.5) = 101`
(truncation), not `max(100, round(101.5)) = 102`; and the output's
4:2:0 chroma planes have width `⌈101/2⌉ = 51`, which is not exactly
half of the odd luma width 101. -/
theorem c1_counterexample :
    ¬ ((scaleImage img0 (1/2)).w = max 100 (round ((203 : ℚ) * (1/2))) ∧
       (scaleImage img0 (1/2)).h = max 100 (round ((203 : ℚ) * (1/2))) ∧
       2 * chromaWidth420 ((scaleImage img0 (1/2)).w) = (scaleImage img0 (1/2)).w) := by
  have hw101 : (scaleImage img0 (1/2)).w = 101 := by
    have hd := (scaleImage_dims img0 (1/2) (by norm_num [img0, GoImage.w])
      (by norm_num [img0, GoImage.h]) (by norm_num)).1
    rw [hd, goTrunc_of_nonneg (by norm_num [img0, GoImage.w])]
    norm_num [img0, GoImage.w]
  have hr : (round ((203 : ℚ) * (1/2)) : Int) = 102 := by
    norm_num [round_eq]
  rintro ⟨h1, -, -⟩
  rw [hw101, hr] at h1
  norm_num at h1

/-- C1 amended: for every source image with positive dimensions and
factor strictly between 0 and 1, the scaled luma dimensions are
`max(100, trunc(srcDim * factor))` (truncation toward zero, not
rounding) in each axis, and the allocated chroma planes measure
`⌈lumaDim/2⌉` per axis — exactly half whenever the luma dimension is
even, and `(lumaDim+1)/2` when it is odd. -/
theorem c1_scale_dims (img : GoImage) (factor : ℚ) (hw : 0 < img.w)
    (hh : 0 < img.h) (h0 : 0 < factor) (h1 : factor < 1) :
    ((scaleImage img factor).w = max 100 ⌊(img.w : ℚ) * factor⌋ ∧
     (scaleImage img factor).h = max 100 ⌊(img.h : ℚ) * factor⌋) ∧
    (2 ∣ (scaleImage img factor).w →
      2 * chromaWidth420 ((scaleImage img factor).w) = (scaleImage img factor).w) ∧
    (¬ 2 ∣ (scaleImage img factor).w →
      2 * chromaWidth420 ((scaleImage img factor).w) = (scaleImage img factor).w + 1) ∧
    (2 ∣ (scaleImage img factor).h →
      2 * chromaHeight420 ((scaleImage img factor).h) = (scaleImage img factor).h) ∧
    (¬ 2 ∣ (scaleImage img factor).h →
      2 * chromaHeight420 ((scaleImage img factor).h) = (scaleImage img factor).h + 1) := by
  obtain ⟨hdw, hdh⟩ := scaleImage_dims img factor hw hh h1
  have hwq : (0 : ℚ) ≤ (img.w : ℚ) * factor := by
    apply mul_nonneg _ (le_of_lt h0)
    exact_mod_cast le_of_lt hw
  have hhq : (0 : ℚ) ≤ (img.h : ℚ) * factor := by
    apply mul_nonneg _ (le_of_lt h0)
    exact_mod_cast le_of_lt hh
  refine ⟨⟨?_, ?_⟩, ?_, ?_, ?_, ?_⟩
  · rw [hdw, goTrunc_of_nonneg hwq]
  · rw [hdh, goTrunc_of_nonneg hhq]
  · intro h
    unfold chromaWidth420
    omega
  · intro h
    unfold chromaWidth420
    omega
  · intro h
    unfold chromaHeight420
    omega
  · intro h
    unfold chromaHeight420
    omega

/-- C1 witness: the amended dimension law evaluated at the concrete
203×203 image with factor 1/2. -/
theorem c1_witness :
    ((scaleImage img0 (1/2)).w = max 100 ⌊(img0.w : ℚ) * (1/2)⌋ ∧
     (scaleImage img0 (1/2)).h = max 100 ⌊(img0.h : ℚ) * (1/2)⌋) ∧
    (2 ∣ (scaleImage img0 (1/2)).w →
      2 * chromaWidth420 ((scaleImage img0 (1/2)).w) = (scaleImage img0 (1/2)).w) ∧
    (¬ 2 ∣ (scaleImage img0 (1/2)).w →
      2 * chromaWidth420 ((scaleImage img0 (1/2)).w) = (scaleImage img0 (1/2)).w + 1) ∧
    (2 ∣ (scaleImage img0 (1/2)).h →
      2 * chromaHeight420 ((scaleImage img0 (1/2)).h) = (scaleImage img0 (1/2)).h) ∧
    (¬ 2 ∣ (scaleImage img0 (1/2)).h →
      2 * chromaHeight420 ((scaleImage img0 (1/2)).h) = (scaleImage img0 (1/2)).h + 1) :=
  c1_scale_dims img0 (1/2) (by decide) (by decide) (by norm_num) (by norm_num)

/-! ## Claim C3 -/

/-- C3: `RateLimiter.Allow` is exactly the claim's token bucket — on
first sight of a key the bucket is created holding `burst - 1` tokens
and the call is admitted; on each later call `elapsed * rate` tokens are
added, capped at `burst`, and the call is admitted (consuming one token)
iff at least one token is available.  With `rate = 1`, `burst = 1`, a
fresh key's first call is admitted, an immediate second call is denied,
and a call at least one second later is admitted again. -/
theorem c3_rate_limiter_allow :
    (∀ (rate burst : Int) (m : RLMap) (ip : String) (now : ℚ),
        RateLimiter.Allow rate burst m ip now = tokenBucketSpec rate burst m ip now) ∧
    (∀ t0 t : ℚ, t0 + 1 ≤ t →
        (RateLimiter.Allow 1 1 [] "k" t0).1 = true ∧
        (RateLimiter.Allow 1 1 (RateLimiter.Allow 1 1 [] "k" t0).2 "k" t0).1 = false ∧
        (RateLimiter.Allow 1 1
            (RateLimiter.Allow 1 1 (RateLimiter.Allow 1 1 [] "k" t0).2 "k" t0).2
            "k" t).1 = true) := by
  constructor
  · intro rate burst m ip now
    unfold RateLimiter.Allow tokenBucketSpec
    cases hl : lookupB m ip with
    | none => rfl
    | some b =>
      dsimp only
      have hmin :
          (if b.tokens + (now - b.lastRef) * (rate : ℚ) > (burst : ℚ) then (burst : ℚ)
            else b.tokens + (now - b.lastRef) * (rate : ℚ)) =
            min (burst : ℚ) (b.tokens + (now - b.lastRef) * (rate : ℚ)) := by
        rcases le_total (b.tokens + (now - b.lastRef) * (rate : ℚ)) (burst : ℚ) with h | h
        · rw [if_neg (not_lt.mpr h), min_eq_right h]
        · rcases eq_or_lt_of_le h with heq | hlt
          · rw [← heq]
            simp
          · rw [if_pos hlt, min_eq_left h]
      rw [hmin]
  · intro t0 t ht
    have e1 : RateLimiter.Allow 1 1 [] "k" t0 = (true, [("k", ⟨0, t0⟩)]) := by
      norm_num [RateLimiter.Allow, lookupB, writeB]
    have e2 : RateLimiter.Allow 1 1 [("k", (⟨0, t0⟩ : Bucket))] "k" t0 =
        (false, [("k", ⟨0, t0⟩)]) := by
      norm_num [RateLimiter.Allow, lookupB, writeB]
    have e3 : (RateLimiter.Allow 1 1 [("k", (⟨0, t0⟩ : Bucket))] "k" t).1 = true := by
      unfold RateLimiter.Allow
      rw [show lookupB [("k", (⟨0, t0⟩ : Bucket))] "k" = some ⟨0, t0⟩ from rfl]
      dsimp only
      split_ifs with hcap hge hge
      · rfl
      · exfalso
        push_cast at hge
        norm_num at hge
      · rfl
      · exfalso
        push_cast at hcap hge
        nlinarith
    refine ⟨by rw [e1], ?_, ?_⟩
    · rw [e1]
      dsimp only
      rw [e2]
    · rw [e1]
      dsimp only
      rw [e2]
      dsimp only
      exact e3

/-- C3 witness: the refinement instantiated at a concrete state and the
scenario instantiated at instants 0, 0, 1. -/
theorem c3_witness :
    RateLimiter.Allow 1 1 [] "k" 0 = tokenBucketSpec 1 1 [] "k" 0 ∧
    ((RateLimiter.Allow 1 1 [] "k" 0).1 = true ∧
      (RateLimiter.Allow 1 1 (RateLimiter.Allow 1 1 [] "k" 0).2 "k" 0).1 = false ∧
      (RateLimiter.Allow 1 1
          (RateLimiter.Allow 1 1 (RateLimiter.Allow 1 1 [] "k" 0).2 "k" 0).2
          "k" 1).1 = true) :=
  ⟨c3_rate_limiter_allow.1 1 1 [] "k" 0, c3_rate_limiter_allow.2 0 1 (by norm_num)⟩

/-! ## Claim C4 -/

/-- Peeling one backoff duration off the front of the backoff list. -/
lemma range_map_backoff (i n : Nat) :
    (List.range (n + 1)).map (fun s => (i + s + 1) * 10) =
      (i + 1) * 10 :: (List.range n).map (fun s => (i + 1 + s + 1) * 10) := by
  rw [List.range_succ_eq_map, List.map_cons, List.map_map]
  congr 1
  have hf : ((fun s => (i + s + 1) * 10) ∘ Nat.succ) =
      (fun s => (i + 1 + s + 1) * 10) := by
    funext s
    simp only [Function.comp_apply]
    omega
  rw [hf]

/-- If every attempt in the window `[i, i+fuel)` is busy and never
cancelled, the loop backs off after each one (including the last) and
exits with the busy error (or the incoming `lastErr` when the window is
empty). -/
lemma swr_aux_all_busy (attempt : Nat → AttemptResult) (cancel : Nat → Bool) :
    ∀ (fuel i : Nat) (lastErr : Option GoError),
      (∀ j, i ≤ j → j < i + fuel → attempt j = .fail .poolBusy ∧ cancel j = false) →
      SubmitWithRetryAux attempt cancel fuel i lastErr =
        ⟨none, if fuel = 0 then lastErr else some .poolBusy,
          (List.range fuel).map (fun s => (i + s + 1) * 10), fuel⟩ := by
  intro fuel
  induction fuel with
  | zero =>
    intro i lastErr h
    simp [SubmitWithRetryAux]
  | succ fuel ih =>
    intro i lastErr h
    have hi := h i le_rfl (by omega)
    have hrec := ih (i + 1) (some .poolBusy) (fun j h1 h2 => h j (by omega) (by omega))
    unfold SubmitWithRetryAux
    rw [hi.1]
    dsimp only
    rw [if_pos rfl, hi.2, if_neg Bool.false_ne_true]
    rw [hrec]
    rw [range_map_backoff]
    cases fuel with
    | zero => simp
    | succ fuel => simp

/-- If the first `k` attempts starting at `i` are busy without
cancellation and the `k`-th attempt fails with a non-busy error, the
loop returns that error immediately after `k+1` calls and `k` backoffs. -/
lemma swr_aux_busy_then_err (attempt : Nat → AttemptResult) (cancel : Nat → Bool)
    (e : GoError) (he : e ≠ .poolBusy) :
    ∀ (k fuel i : Nat) (lastErr : Option GoError), k < fuel →
      (∀ j, j < k → attempt (i + j) = .fail .poolBusy ∧ cancel (i + j) = false) →
      attempt (i + k) = .fail e →
      SubmitWithRetryAux attempt cancel fuel i lastErr =
        ⟨none, some e, (List.range k).map (fun s => (i + s + 1) * 10), k + 1⟩ := by
  intro k
  induction k with
  | zero =>
    intro fuel i lastErr hk hpre hke
    cases fuel with
    | zero => omega
    | succ f =>
      rw [Nat.add_zero] at hke
      unfold SubmitWithRetryAux
      rw [hke]
      dsimp only
      rw [if_neg he]
      simp
  | succ k ih =>
    intro fuel i lastErr hk hpre hke
    cases fuel with
    | zero => omega
    | succ f =>
      have hi := hpre 0 (by omega)
      rw [Nat.add_zero] at hi
      have hrec := ih f (i + 1) (some .poolBusy) (by omega)
        (fun j hj => by
          have hjj := hpre (j + 1) (by omega)
          rwa [show i + (j + 1) = i + 1 + j by omega] at hjj)
        (by rwa [show i + 1 + k = i + (k + 1) by omega])
      unfold SubmitWithRetryAux
      rw [hi.1]
      dsimp only
      rw [if_pos rfl, hi.2, if_neg Bool.false_ne_true]
      rw [hrec, range_map_backoff]

/-- C4: `SubmitWithRetry` with positive `maxRetries`: whenever `Submit`
returns a non-busy error (a context error included) after a streak of
uncancelled busy attempts, that error is returned at once with no
further `Submit` calls; each busy outcome is followed by a backoff of
`attempt * 10ms` (1-based); and when all `maxRetries` attempts come back
busy without cancellation, the last busy error is returned after exactly
`maxRetries` calls. -/
theorem c4_submit_with_retry :
    (∀ (attempt : Nat → AttemptResult) (cancel : Nat → Bool) (m : Int)
        (k : Nat) (e : GoError),
        0 < m → (k : Int) < m →
        (∀ j, j < k → attempt j = .fail .poolBusy ∧ cancel j = false) →
        attempt k = .fail e → e ≠ .poolBusy →
        SubmitWithRetry attempt cancel m =
          ⟨none, some e, (List.range k).map (fun s => (s + 1) * 10), k + 1⟩) ∧
    (∀ (attempt : Nat → AttemptResult) (cancel : Nat → Bool) (m : Int),
        0 < m →
        (∀ j : Nat, (j : Int) < m → attempt j = .fail .poolBusy ∧ cancel j = false) →
        SubmitWithRetry attempt cancel m =
          ⟨none, some .poolBusy,
            (List.range m.toNat).map (fun s => (s + 1) * 10), m.toNat⟩) := by
  constructor
  · intro attempt cancel m k e hm hkm hpre hke he
    unfold SubmitWithRetry
    have h := swr_aux_busy_then_err attempt cancel e he k m.toNat 0 none
      (by omega) (fun j hj => by simpa using hpre j hj) (by simpa using hke)
    rw [h]
    simp only [Nat.zero_add]
  · intro attempt cancel m hm hpre
    unfold SubmitWithRetry
    have h := swr_aux_all_busy attempt cancel m.toNat 0 none
      (fun j h1 h2 => hpre j (by omega))
    rw [h]
    rw [if_neg (by omega)]
    simp only [Nat.zero_add]

/-- C4 witness: a pool busy on the first attempt and failing with a
conversion error on the second returns that error after one 10ms
backoff and exactly two `Submit` calls. -/
theorem c4_witness :
    SubmitWithRetry (fun j => if j = 0 then .fail .poolBusy else .fail .convFailed)
        (fun _ => false) 3 =
      ⟨none, some .convFailed, [10], 2⟩ := by
  have h := c4_submit_with_retry.1
    (fun j => if j = 0 then .fail .poolBusy else .fail .convFailed)
    (fun _ => false) 3 1 .convFailed (by norm_num) (by norm_num)
    (by decide) (by decide) (by decide)
  simpa using h

/-! ## Claim C6 -/

/-- C6: for positive inputs the estimate equals the claim's pipeline —
`100 * sqrt(targetBytes / (pixels * 0.18))` with
`targetBytes = targetSizeKB * 1024` and `pixels = width * height`
(where `sqrt` is the estimator's own Newton/passthrough square root),
reduced by 5 above 20 megapixels, increased by 5 below 3 megapixels,
and clamped to `[10, 100]`. -/
theorem c6_quality_formula (w h t : Int) (hw : 0 < w) (hh : 0 < h) (ht : 0 < t) :
    estimateQualitySinglePass w h t =
      clamp (goTrunc (100 * sqrt (((t * 1024 : Int) : ℚ) / (((w * h : Int) : ℚ) * (18/100)))
          + (if w * h > 20000000 then (-5 : ℚ) else 0)
          + (if w * h < 3000000 then (5 : ℚ) else 0))) 10 100 := by
  simp only [estimateQualitySinglePass, estimateQualityFromPixels]
  by_cases h20 : w * h > 20000000
  · have h3 : ¬ (w * h < 3000000) := by omega
    simp only [if_pos h20, if_neg h3]
    congr 2
    ring
  · by_cases h3 : w * h < 3000000
    · simp only [if_neg h20, if_pos h3]
      congr 2
      ring
    · simp only [if_neg h20, if_neg h3]
      congr 2
      ring

/-- C6 witness: the formula evaluated at 1920×1080 with a 500KB target. -/
theorem c6_witness :
    estimateQualitySinglePass 1920 1080 500 =
      clamp (goTrunc (100 * sqrt (((500 * 1024 : Int) : ℚ) / (((1920 * 1080 : Int) : ℚ) * (18/100)))
          + (if (1920 * 1080 : Int) > 20000000 then (-5 : ℚ) else 0)
          + (if (1920 * 1080 : Int) < 3000000 then (5 : ℚ) else 0))) 10 100 :=
  c6_quality_formula 1920 1080 500 (by norm_num) (by norm_num) (by norm_num)

/-! ## Claim C7 -/

/-- One Newton step stays positive. -/
lemma newtonStep_pos {x z : ℚ} (hx : 0 < x) (hz : 0 < z) : 0 < newtonStep x z := by
  unfold newtonStep
  positivity

/-- After one Newton step from a positive start the square dominates the
radicand (AM-GM). -/
lemma newtonStep_sq {x z : ℚ} (hx : 0 < x) (hz : 0 < z) :
    x ≤ (newtonStep x z) ^ 2 := by
  have hz0 : z ≠ 0 := ne_of_gt hz
  have key : (newtonStep x z) ^ 2 - x = ((1/2) * (z - x / z)) ^ 2 := by
    unfold newtonStep
    field_simp
    ring
  nlinarith [sq_nonneg ((1/2) * (z - x / z))]

/-- A Newton step from a point whose square dominates the radicand does
not increase. -/
lemma newtonStep_le_self {x z : ℚ} (hx : 0 < x) (hz : 0 < z) (hzz : x ≤ z ^ 2) :
    newtonStep x z ≤ z := by
  unfold newtonStep
  have hdiv : x / z ≤ z := by
    rw [div_le_iff₀ hz]
    nlinarith
  linarith

/-- Monotonicity of one Newton step in both the radicand and the
iterate, given the `x ≤ a²` invariant. -/
lemma newtonStep_mono {x y a b : ℚ} (hx : 0 < x) (hxy : x ≤ y) (ha : 0 < a)
    (hab : a ≤ b) (hxa : x ≤ a ^ 2) : newtonStep x a ≤ newtonStep y b := by
  have hb : 0 < b := lt_of_lt_of_le ha hab
  have hxab : x ≤ a * b := by nlinarith
  have e1 : a + x / a ≤ b + x / b := by
    rw [← sub_nonneg]
    have hrw : b + x / b - (a + x / a) = (b - a) * (a * b - x) / (a * b) := by
      field_simp
      ring
    rw [hrw]
    apply div_nonneg
    · nlinarith
    · positivity
  have e2 : b + x / b ≤ b + y / b := by
    have : x / b ≤ y / b := by gcongr
    linarith
  unfold newtonStep
  linarith

/-- The four-step Newton iterate is monotone on `(0, 1]` radicands. -/
lemma newton4_mono {x y : ℚ} (hx : 0 < x) (hxy : x ≤ y) (hy1 : y ≤ 1) :
    newton4 x ≤ newton4 y := by
  have hx1 : x ≤ 1 := le_trans hxy hy1
  have hy : 0 < y := lt_of_lt_of_le hx hxy
  have h1 : newtonStep x 1 ≤ newtonStep y 1 :=
    newtonStep_mono hx hxy one_pos le_rfl (by nlinarith)
  have p1x : 0 < newtonStep x 1 := newtonStep_pos hx one_pos
  have s1x : x ≤ (newtonStep x 1) ^ 2 := newtonStep_sq hx one_pos
  have h2 : newtonStep x (newtonStep x 1) ≤ newtonStep y (newtonStep y 1) :=
    newtonStep_mono hx hxy p1x h1 s1x
  have p2x : 0 < newtonStep x (newtonStep x 1) := newtonStep_pos hx p1x
  have s2x : x ≤ (newtonStep x (newtonStep x 1)) ^ 2 := newtonStep_sq hx p1x
  have h3 : newtonStep x (newtonStep x (newtonStep x 1)) ≤
      newtonStep y (newtonStep y (newtonStep y 1)) :=
    newtonStep_mono hx hxy p2x h2 s2x
  have p3x : 0 < newtonStep x (newtonStep x (newtonStep x 1)) := newtonStep_pos hx p2x
  have s3x : x ≤ (newtonStep x (newtonStep x (newtonStep x 1))) ^ 2 :=
    newtonStep_sq hx p2x
  unfold newton4
  exact newtonStep_mono hx hxy p3x h3 s3x

/-- The four-step Newton iterate stays positive. -/
lemma newton4_pos {x : ℚ} (hx : 0 < x) : 0 < newton4 x := by
  unfold newton4
  exact newtonStep_pos hx (newtonStep_pos hx (newtonStep_pos hx (newtonStep_pos hx one_pos)))

/-- For radicands below one the four-step Newton iterate stays below one:
the first step lands at `(1+x)/2 < 1` and later steps never increase. -/
lemma newton4_lt_one {x : ℚ} (hx : 0 < x) (hx1 : x < 1) : newton4 x < 1 := by
  have p1 : 0 < newtonStep x 1 := newtonStep_pos hx one_pos
  have s1 : x ≤ (newtonStep x 1) ^ 2 := newtonStep_sq hx one_pos
  have p2 : 0 < newtonStep x (newtonStep x 1) := newtonStep_pos hx p1
  have s2 : x ≤ (newtonStep x (newtonStep x 1)) ^ 2 := newtonStep_sq hx p1
  have p3 : 0 < newtonStep x (newtonStep x (newtonStep x 1)) := newtonStep_pos hx p2
  have s3 : x ≤ (newtonStep x (newtonStep x (newtonStep x 1))) ^ 2 := newtonStep_sq hx p2
  have d2 : newtonStep x (newtonStep x 1) ≤ newtonStep x 1 :=
    newtonStep_le_self hx p1 s1
  have d3 : newtonStep x (newtonStep x (newtonStep x 1)) ≤ newtonStep x (newtonStep x 1) :=
    newtonStep_le_self hx p2 s2
  have d4 : newton4 x ≤ newtonStep x (newtonStep x (newtonStep x 1)) := by
    unfold newton4
    exact newtonStep_le_self hx p3 s3
  have hstep1 : newtonStep x 1 < 1 := by
    unfold newtonStep
    rw [div_one]
    linarith
  linarith

/-- The estimator's `sqrt` is non-negative. -/
lemma sqrt_nonneg_model (x : ℚ) : 0 ≤ sqrt x := by
  unfold sqrt
  split_ifs with h1 h2
  · exact le_refl 0
  · linarith
  · exact le_of_lt (newton4_pos (by linarith))

/-- The estimator's `sqrt` is monotone non-decreasing. -/
lemma sqrt_mono {x y : ℚ} (hxy : x ≤ y) : sqrt x ≤ sqrt y := by
  unfold sqrt
  by_cases hx0 : x ≤ 0
  · rw [if_pos hx0]
    by_cases hy0 : y ≤ 0
    · rw [if_pos hy0]
    · rw [if_neg hy0]
      by_cases hy1 : 1 ≤ y
      · rw [if_pos hy1]
        linarith
      · rw [if_neg hy1]
        exact le_of_lt (newton4_pos (by linarith))
  · rw [if_neg hx0]
    have hy0 : ¬ y ≤ 0 := by linarith
    rw [if_neg hy0]
    by_cases hx1 : 1 ≤ x
    · have hy1 : 1 ≤ y := le_trans hx1 hxy
      rw [if_pos hx1, if_pos hy1]
      exact hxy
    · rw [if_neg hx1]
      by_cases hy1 : 1 ≤ y
      · rw [if_pos hy1]
        exact le_trans (le_of_lt (newton4_lt_one (by linarith) (by linarith))) hy1
      · rw [if_neg hy1]
        exact newton4_mono (by linarith) hxy (by linarith)

/-- `goTrunc` (truncation toward zero) is monotone. -/
lemma goTrunc_mono {p q : ℚ} (h : p ≤ q) : goTrunc p ≤ goTrunc q := by
  unfold goTrunc
  split_ifs with h1 h2 h2
  · exact Int.ceil_le_ceil h
  · have hc : ⌈p⌉ ≤ (0 : Int) := Int.ceil_le.mpr (by push_cast; linarith)
    have hf : (0 : Int) ≤ ⌊q⌋ := Int.floor_nonneg.mpr (not_lt.mp h2)
    omega
  · linarith
  · exact Int.floor_le_floor h

/-- `clamp` is monotone in its argument. -/
lemma clamp_mono {a b low high : Int} (hlh : low ≤ high) (h : a ≤ b) :
    clamp a low high ≤ clamp b low high := by
  unfold clamp
  split_ifs <;> omega

/-- C7: holding the target size fixed, the estimate is non-increasing in
the pixel count within each density-correction band: for positive pixel
counts `p1 < p2` in the same band, the estimate at `p2` is at most the
estimate at `p1` (the estimate at `w×h` pixels being
`estimateQualityFromPixels (w*h)`). -/
theorem c7_quality_monotone (t p1 p2 : Int) (ht : 0 < t) (hp1 : 0 < p1)
    (h12 : p1 < p2) (hband : densityBand p1 = densityBand p2) :
    estimateQualityFromPixels p2 t ≤ estimateQualityFromPixels p1 t := by
  have hp2 : 0 < p2 := lt_trans hp1 h12
  have hT : (0 : ℚ) < ((t * 1024 : Int) : ℚ) := by
    have : (0 : Int) < t * 1024 := by positivity
    exact_mod_cast this
  have hd1 : (0 : ℚ) < ((p1 : ℚ) * (18/100)) := by
    have : (0 : ℚ) < (p1 : ℚ) := by exact_mod_cast hp1
    positivity
  have hd12 : ((p1 : ℚ) * (18/100)) ≤ ((p2 : ℚ) * (18/100)) := by
    have : (p1 : ℚ) ≤ (p2 : ℚ) := by exact_mod_cast le_of_lt h12
    nlinarith
  have hratio : ((t * 1024 : Int) : ℚ) / ((p2 : ℚ) * (18/100)) ≤
      ((t * 1024 : Int) : ℚ) / ((p1 : ℚ) * (18/100)) := by
    gcongr
  have hsqrt := sqrt_mono hratio
  have hb20 : (p1 > 20000000) ↔ (p2 > 20000000) := by
    unfold densityBand at hband
    split_ifs at hband <;> omega
  have hb3 : (p1 < 3000000) ↔ (p2 < 3000000) := by
    unfold densityBand at hband
    split_ifs at hband <;> omega
  simp only [estimateQualityFromPixels]
  by_cases h20 : p1 > 20000000
  · have h20b := hb20.mp h20
    have h3 : ¬ (p1 < 3000000) := by omega
    have h3b : ¬ (p2 < 3000000) := by omega
    simp only [if_pos h20, if_pos h20b]
    exact clamp_mono (by norm_num) (goTrunc_mono (by linarith))
  · have h20b : ¬ (p2 > 20000000) := fun hh => h20 (hb20.mpr hh)
    by_cases h3 : p1 < 3000000
    · have h3b := hb3.mp h3
      simp only [if_neg h20, if_neg h20b, if_pos h3, if_pos h3b]
      exact clamp_mono (by norm_num) (goTrunc_mono (by linarith))
    · have h3b : ¬ (p2 < 3000000) := fun hh => h3 (hb3.mpr hh)
      simp only [if_neg h20, if_neg h20b, if_neg h3, if_neg h3b]
      exact clamp_mono (by norm_num) (goTrunc_mono (by linarith))

/-- C7 witness: within the middle band, 8 megapixels at a 500KB target
estimates no higher than 4 megapixels. -/
theorem c7_witness :
    estimateQualityFromPixels 8000000 500 ≤ estimateQualityFromPixels 4000000 500 :=
  c7_quality_monotone 500 4000000 8000000 (by norm_num) (by norm_num)
    (by norm_num) (by decide)

end GoHeif
